import Mathlib

set_option maxRecDepth 100000

/-!
# Verification of the snippet-index generator (`generate.py`)

Shallow embedding of the one-file Python program that scans a directory for
`*.html` snippet files, extracts a title and description from each via regex
matching, and renders a single `index.html` document.

Modelling conventions:
* Text is `List Char` (`Str`); Python reads files as UTF-8 text, so file
  contents are sequences of Unicode code points, as is `List Char`.
* The filesystem is abstracted: the directory listing is a `List Str` of
  names, `isFile : Str → Bool` models `os.path.isfile`, and
  `fs : Str → Option Str` maps a file name to its decoded contents, with
  `none` standing for any read/decode failure (the `except` branches).
* Each regex of the source is embedded by its exact match semantics
  (leftmost match; lazy `(.*?)` bodies; greedy `[^>]*` runs with
  backtracking), specialised to the concrete pattern.  `re.IGNORECASE` is
  modelled by ASCII lowercasing (`lowc`) of both pattern and subject
  characters; all pattern characters are ASCII.
* Console output of the `except` handlers is modelled by the `Bool`
  "warned" component returned by the extractors.
-/

abbrev Str := List Char

/-- The characters of a Lean string literal; used to write embedded text. -/
def str (s : String) : Str := s.data

/-- ASCII lowercasing of one character (`A`-`Z` map to `a`-`z`, everything
else is fixed), modelling how `re.IGNORECASE` compares the ASCII pattern
characters of the source's regexes with subject characters. -/
def lowc (c : Char) : Char :=
  if 65 ≤ c.toNat ∧ c.toNat ≤ 90 then Char.ofNat (c.toNat + 32) else c

/-- Python `str.isspace` characters relevant to `str.strip()` / `str.split()`
on ASCII text: space, tab, newline, carriage return, vertical tab, form feed. -/
def pyIsSpace (c : Char) : Bool :=
  c = ' ' || c = '\t' || c = '\n' || c = '\r' || c = Char.ofNat 11 || c = Char.ofNat 12

/-- Python `str.strip()`: remove leading and trailing whitespace. -/
def pyStrip (s : Str) : Str :=
  ((s.dropWhile pyIsSpace).reverse.dropWhile pyIsSpace).reverse

/-- Helper for `pySplit`: accumulates the current word (reversed). -/
def pySplitAux : Str → Str → List Str
  | [], acc => if acc = [] then [] else [acc.reverse]
  | c :: cs, acc =>
    if pyIsSpace c then
      if acc = [] then pySplitAux cs [] else acc.reverse :: pySplitAux cs []
    else pySplitAux cs (c :: acc)

/-- Python `str.split()` (no argument): words separated by whitespace runs. -/
def pySplit (s : Str) : List Str := pySplitAux s []

/-- Python `' '.join(words)`. -/
def joinSpace : List Str → Str
  | [] => []
  | [w] => w
  | w :: ws => w ++ ' ' :: joinSpace ws

/-- `' '.join(desc.split())` of the source: collapse internal whitespace
runs to single spaces and drop leading/trailing whitespace. -/
def collapseWs (s : Str) : Str := joinSpace (pySplit s)

/-- ASCII letter test (the cased characters relevant to `str.title()` on
ASCII file names). -/
def isAsciiAlpha (c : Char) : Bool :=
  ('a' ≤ c && c ≤ 'z') || ('A' ≤ c && c ≤ 'Z')

/-- ASCII uppercasing of one character. -/
def upc (c : Char) : Char :=
  if 97 ≤ c.toNat ∧ c.toNat ≤ 122 then Char.ofNat (c.toNat - 32) else c

/-- Helper for `pyTitle`: the `Bool` records whether the previous character
was cased (a letter). -/
def pyTitleAux : Bool → Str → Str
  | _, [] => []
  | prevAlpha, c :: cs =>
    (if isAsciiAlpha c then (if prevAlpha then lowc c else upc c) else c)
      :: pyTitleAux (isAsciiAlpha c) cs

/-- Python `str.title()` (ASCII model): the first letter of every maximal
letter run is uppercased, subsequent letters are lowercased, other
characters are kept. -/
def pyTitle (s : Str) : Str := pyTitleAux false s

/-- The final path component of `filepath` (the part after the last `/`),
as used by `pathlib.Path(filepath).stem`. -/
def baseName (p : Str) : Str := (p.reverse.takeWhile (· ≠ '/')).reverse

/-- `pathlib.Path(name).stem` on a single path component `name`: drop the
last `.suffix` when the last dot sits strictly inside the name (neither at
index 0 nor at the final position); otherwise the name is unchanged. -/
def stem (name : Str) : Str :=
  let k := (name.reverse.takeWhile (· ≠ '.')).length
  if k < name.length ∧ 1 ≤ k ∧ 1 ≤ name.length - k - 1 then
    name.take (name.length - k - 1)
  else name

/-- `Path(filepath).stem.replace('_', ' ').title()` — the fallback title the
source derives from the file name (generate.py line 40). -/
def fallbackTitle (filepath : Str) : Str :=
  pyTitle ((stem (baseName filepath)).map (fun c => if c = '_' then ' ' else c))

/-! ## Regex matching machinery

`dropCI pat s` matches the literal pattern `pat` case-insensitively at the
start of `s` and returns the rest of `s`; `splitAtCI pat s` scans for the
leftmost such match and returns the text before it and the text after it —
exactly how `re.search` locates a literal (case-insensitive) pattern. -/

def dropCI : Str → Str → Option Str
  | [], t => some t
  | _ :: _, [] => none
  | p :: ps, t :: ts => if lowc p = lowc t then dropCI ps ts else none

def splitAtCI (pat : Str) : Str → Option (Str × Str)
  | [] => none
  | c :: cs =>
    match dropCI pat (c :: cs) with
    | some rest => some ([], rest)
    | none => (splitAtCI pat cs).map (fun r => (c :: r.1, r.2))

/-- Leftmost occurrence of the single character `g` (used for the `>` that
closes a `[^>]*>` bracket: the greedy class cannot pass over a `>`, so the
pattern's `>` always matches the first `>` of the remaining subject). -/
def splitAtChar (g : Char) : Str → Option (Str × Str)
  | [] => none
  | c :: cs =>
    if c = g then some ([], cs)
    else (splitAtChar g cs).map (fun r => (c :: r.1, r.2))

/-- `re.search(r'<title>(.*?)</title>', content, IGNORECASE | DOTALL)`:
the leftmost match starts at the first case-insensitive `<title>`, and the
lazy, DOTALL body extends to the first case-insensitive `</title>` after
it.  (If the first `<title>` has no closing tag after it then no later
`<title>` has one either, so the whole search fails — hence scanning from
the first opener is faithful to leftmost-match semantics.) -/
def titleSearch (content : Str) : Option Str :=
  (splitAtCI (str "<title>") content).bind fun r =>
    (splitAtCI (str "</title>") r.2).map fun q => q.1

/-- `re.search('<TAG[^>]*>(.*?)</TAG>', content, IGNORECASE | DOTALL)` for a
literal opener `<TAG` and closer `</TAG>`: leftmost case-insensitive
occurrence of the opener, then the greedy `[^>]*>` ends at the first `>`
after it, then the lazy DOTALL body extends to the first case-insensitive
closer.  Monotonicity of "first `>` after" and "first closer after" in the
start position makes scanning only from the first opener faithful to
leftmost-match semantics. -/
def tagSearch (opener closer : Str) (content : Str) : Option Str :=
  (splitAtCI opener content).bind fun r1 =>
    (splitAtChar '>' r1.2).bind fun r2 =>
      (splitAtCI closer r2.2).map fun q => q.1

/-- The `<h1[^>]*>(.*?)</h1>` fallback of `extract_title_from_html`. -/
def h1Search (content : Str) : Option Str := tagSearch (str "<h1") (str "</h1>") content

/-- The `<p[^>]*>(.*?)</p>` fallback of `extract_description_from_html`. -/
def pSearch (content : Str) : Option Str := tagSearch (str "<p") (str "</p>") content

/-- The `["\']` character class of the meta-description pattern. -/
def isQuote (c : Char) : Bool := c = '"' || c = Char.ofNat 39

/-- Consume one character of the `["\']` class. -/
def quoteCl : Str → Option Str
  | c :: cs => if isQuote c then some cs else none
  | [] => none

/-- All ways a greedy `[^>]*` can split the subject, longest consumed run
first (the order a backtracking engine tries them): each element is the
suffix left after consuming a prefix of non-`>` characters. -/
def greedySplits : Str → List Str
  | [] => [[]]
  | c :: cs => if c ≠ '>' then greedySplits cs ++ [c :: cs] else [c :: cs]

/-- Suffix enumeration used to reason about `greedySplits` across an
append: the splits of `a ++ s0` that keep a nonempty suffix of `a`,
longest-consumed first (matching the greedy backtracking order). -/
def sufAux : Str → Str → List Str
  | [], _ => []
  | c :: cs, s0 => sufAux cs s0 ++ [c :: (cs ++ s0)]

/-- The tail of the meta-description pattern from `content=` on:
`content=["\']([^"\']*)["\'][^>]*>` — literal `content=`, one quote, the
captured greedy quote-free run, its closing quote, then `[^>]*>`, which
succeeds exactly when a `>` remains.  Returns the captured text. -/
def metaInner (t1 : Str) : Option Str :=
  (dropCI (str "content=") t1).bind fun t2 =>
  (quoteCl t2).bind fun t3 =>
  let grp := t3.takeWhile (fun c => !(isQuote c))
  (quoteCl (t3.drop grp.length)).bind fun t5 =>
  if t5.dropWhile (· ≠ '>') ≠ [] then some grp else none

/-- The tail of the meta-description pattern from `name=` on:
`name=["\']description["\'][^>]*content=…` — the second greedy `[^>]*` is
tried longest-consumed first via `greedySplits`. -/
def metaName (s1 : Str) : Option Str :=
  (dropCI (str "name=") s1).bind fun s2 =>
  (quoteCl s2).bind fun s3 =>
  (dropCI (str "description") s3).bind fun s4 =>
  (quoteCl s4).bind fun s5 =>
  (greedySplits s5).findSome? metaInner

/-- The continuation of the meta-description pattern after its literal
`<meta` head:
`[^>]*name=["\']description["\'][^>]*content=["\']([^"\']*)["\'][^>]*>`
with greedy, backtracking `[^>]*` runs (tried longest first), returning the
text captured by `([^"\']*)`. -/
def metaAfter (s : Str) : Option Str :=
  (greedySplits s).findSome? metaName

/-- `re.search` of the whole meta-description pattern (generate.py lines
57-61): try a full backtracking match at every position, leftmost first. -/
def metaSearch : Str → Option Str
  | [] => none
  | c :: cs =>
    match (dropCI (str "<meta") (c :: cs)).bind metaAfter with
    | some g => some g
    | none => metaSearch cs

/-- Fuelled scan for `stripTags`; every step consumes at least one subject
character, so fuel equal to the subject length always suffices. -/
def stripTagsF : Nat → Str → Str
  | 0, s => s
  | _ + 1, [] => []
  | fuel + 1, c :: rest =>
    if c = '<' ∧ rest.takeWhile (· ≠ '>') ≠ [] ∧ rest.dropWhile (· ≠ '>') ≠ [] then
      stripTagsF fuel ((rest.dropWhile (· ≠ '>')).tail)
    else c :: stripTagsF fuel rest

/-- `re.sub(r'<[^>]+>', '', s)`: scan left to right, replacing every
non-overlapping `<`…`>` run (with at least one non-`>` character inside)
by nothing.  `<>` does not match (the class is `+`), nor does a `<` with no
later `>` — in both cases the scan keeps the character and moves on. -/
def stripTags (s : Str) : Str := stripTagsF s.length s

/-! ## Data model -/

/-- One snippet record `(filename, title, description)` as produced by
`find_html_snippets`. -/
structure Snippet where
  filename : Str
  title : Str
  description : Str
deriving DecidableEq, Repr

/-! ## Extractors (generate.py lines 15-75)

Each extractor takes the file path passed by the scanner and the optional
file contents (`none` models a read/decode failure, i.e. the `except`
branch).  The `Bool` of the result records whether the warning of the
`except` handler was printed. -/

/-- `extract_title_from_html`: first `<title>` body stripped, else first
`<h1…>` body stripped, else the filename-derived fallback; on a read
failure the fallback is returned and a warning is printed. -/
def extract_title_from_html (filepath : Str) (contents : Option Str) : Str × Bool :=
  match contents with
  | some content =>
    match titleSearch content with
    | some body => (pyStrip body, false)
    | none =>
      match h1Search content with
      | some body => (pyStrip body, false)
      | none => (fallbackTitle filepath, false)
  | none => (fallbackTitle filepath, true)

/-- `extract_description_from_html`: the stripped capture of the
meta-description pattern, else the first `<p…>` body with tags stripped and
whitespace collapsed, truncated to 150 characters plus `...` when longer,
else the empty string; on a read failure the empty string is returned and a
warning is printed. -/
def extract_description_from_html (filepath : Str) (contents : Option Str) : Str × Bool :=
  match contents with
  | some content =>
    match metaSearch content with
    | some grp => (pyStrip grp, false)
    | none =>
      match pSearch content with
      | some body =>
        let desc := collapseWs (stripTags body)
        (if 150 < desc.length then desc.take 150 ++ str "..." else desc, false)
      | none => ([], false)
  | none => ([], true)

/-! ## Scanner (generate.py lines 78-98) -/

/-- Python string comparison `a <= b`: lexicographic by code point. -/
def lexLe : Str → Str → Bool
  | [], _ => true
  | _ :: _, [] => false
  | a :: as, b :: bs => if a < b then true else if b < a then false else lexLe as bs

/-- The ordering used by `sorted(os.listdir(directory))`. -/
def strLe (a b : Str) : Prop := lexLe a b = true

instance : DecidableRel strLe := fun a b => inferInstanceAs (Decidable (lexLe a b = true))

/-- The filter of the scanner loop: `filename.endswith('.html') and
filename != 'index.html'` and `os.path.isfile(filepath)`. -/
def qualifiesB (isFile : Str → Bool) (name : Str) : Bool :=
  (str ".html").isSuffixOf name && name ≠ str "index.html" && isFile name

/-- The body of the scanner loop: the record built for one qualifying
directory entry, `none` for entries that are filtered out. -/
def scanStep (isFile : Str → Bool) (fs : Str → Option Str) (name : Str) : Option Snippet :=
  if qualifiesB isFile name then
    some ⟨name, (extract_title_from_html name (fs name)).1,
          (extract_description_from_html name (fs name)).1⟩
  else none

/-- `find_html_snippets`: iterate over the sorted directory listing and
collect the records of the qualifying entries, in order.  (`sorted` is
modelled by `insertionSort` under `strLe`; since `strLe` is a total order
this is extensionally the unique sorted permutation that Python's sort
produces.) -/
def find_html_snippets (listing : List Str) (isFile : Str → Bool) (fs : Str → Option Str) :
    List Snippet :=
  (List.insertionSort strLe listing).filterMap (scanStep isFile fs)

/-- The names for which the scanner's run prints "Could not read" warnings:
the qualifying entries whose extraction hit the `except` branch (projection
of the extractors' warning flags along the same scan). -/
def run_warnings (listing : List Str) (isFile : Str → Bool) (fs : Str → Option Str) : List Str :=
  (List.insertionSort strLe listing).filter fun name =>
    qualifiesB isFile name &&
      ((extract_title_from_html name (fs name)).2 ||
        (extract_description_from_html name (fs name)).2)

/-! ## Renderer (generate.py lines 101-324) -/

/-- Literal segments of the per-record entry lines (generate.py 295-300). -/
def entLi : Str := str "                <li class=\"snippet-item\">\n"

/-- Start of the title hyperlink line, up to the `href` value. -/
def entA1 : Str := str "                    <h2><a href=\""

/-- Between the `href` value and the link text. -/
def entA2 : Str := str "\">"

/-- End of the title hyperlink line. -/
def entA3 : Str := str "</a></h2>\n"

/-- Start of the description paragraph line. -/
def entP1 : Str := str "                    <p class=\"snippet-description\">"

/-- End of the description paragraph line. -/
def entP2 : Str := str "</p>\n"

/-- Start of the filename badge line. -/
def entS1 : Str := str "                    <span class=\"snippet-filename\">"

/-- End of the filename badge line. -/
def entS2 : Str := str "</span>\n"

/-- Closing line of one entry. -/
def entEnd : Str := str "                </li>\n"

/-- The HTML fragment the renderer appends for one record (the f-string
lines of the loop, generate.py lines 295-300); the description paragraph
line is only appended when the description is non-empty (`if description:`). -/
def entry_html (s : Snippet) : Str :=
  entLi ++ entA1 ++ s.filename ++ entA2 ++ s.title ++ entA3
    ++ (if s.description ≠ [] then entP1 ++ s.description ++ entP2 else [])
    ++ entS1 ++ s.filename ++ entS2 ++ entEnd

/-- The empty-state fragment used when no snippets were found
(generate.py lines 305-308). -/
def emptyStateHtml : Str :=
  str "            <div class=\"empty-state\">\n                <h2>No Snippets Yet</h2>\n                <p>Add HTML files to this directory and run generate.py again.</p>\n            </div>"

/-- The `snippet_count` line (generate.py lines 291 and 304). -/
def snippet_count (l : List Snippet) : Str :=
  if l.isEmpty then str "No snippets found"
  else
    str "Found " ++ str (Nat.repr l.length) ++ str " snippet"
      ++ (if l.length = 1 then [] else str "s")

/-- The `snippets_content` value: either the `<ul>` list of entries or the
empty-state fragment (generate.py lines 290-308). -/
def snippets_content (l : List Snippet) : Str :=
  if l.isEmpty then emptyStateHtml
  else
    str "<ul class=\"snippets-list\">\n" ++ (l.map entry_html).foldr (· ++ ·) []
      ++ str "            </ul>"
/-- The template text before the `snippet_count` placeholder, with the doubled braces of the Python format string already expanded to single braces (what `str.format` leaves). -/
def tplA : Str := str "<!DOCTYPE html>
<html lang=\"en\">
<head>
    <meta charset=\"UTF-8\">
    <meta name=\"viewport\" content=\"width=device-width, initial-scale=1.0\">
    <meta name=\"description\" content=\"A collection of code snippets and small one-page apps\">
    <title>Code Snippets Collection</title>
    <style>
        * \x7b
            margin: 0;
            padding: 0;
            box-sizing: border-box;
        \x7d
        
        body \x7b
            font-family: -apple-system, BlinkMacSystemFont, \x27Segoe UI\x27, Roboto, Oxygen, Ubuntu, Cantarell, sans-serif;
            line-height: 1.6;
            color: #333;
            background: linear-gradient(135deg, #667eea 0%, #764ba2 100%);
            min-height: 100vh;
            padding: 20px;
        \x7d
        
        .container \x7b
            max-width: 900px;
            margin: 0 auto;
            background: white;
            border-radius: 12px;
            box-shadow: 0 10px 40px rgba(0, 0, 0, 0.2);
            overflow: hidden;
        \x7d
        
        header \x7b
            background: linear-gradient(135deg, #667eea 0%, #764ba2 100%);
            color: white;
            padding: 40px 30px;
            text-align: center;
        \x7d
        
        header h1 \x7b
            font-size: 2.5em;
            margin-bottom: 10px;
            font-weight: 700;
        \x7d
        
        header p \x7b
            font-size: 1.1em;
            opacity: 0.95;
        \x7d
        
        .content \x7b
            padding: 40px 30px;
        \x7d
        
        .snippet-count \x7b
            color: #666;
            font-size: 0.95em;
            margin-bottom: 30px;
            text-align: center;
        \x7d
        
        .snippets-list \x7b
            list-style: none;
        \x7d
        
        .snippet-item \x7b
            background: #f8f9fa;
            border-radius: 8px;
            margin-bottom: 20px;
            padding: 25px;
            transition: all 0.3s ease;
            border-left: 4px solid #667eea;
        \x7d
        
        .snippet-item:hover \x7b
            transform: translateY(-2px);
            box-shadow: 0 4px 12px rgba(0, 0, 0, 0.1);
            background: #f1f3f5;
        \x7d
        
        .snippet-item h2 \x7b
            font-size: 1.5em;
            margin-bottom: 10px;
            color: #2d3748;
        \x7d
        
        .snippet-item h2 a \x7b
            color: #667eea;
            text-decoration: none;
            transition: color 0.3s ease;
        \x7d
        
        .snippet-item h2 a:hover \x7b
            color: #764ba2;
        \x7d
        
        .snippet-description \x7b
            color: #666;
            margin-bottom: 12px;
            line-height: 1.5;
        \x7d
        
        .snippet-filename \x7b
            font-family: \x27Courier New\x27, monospace;
            font-size: 0.85em;
            color: #999;
            background: #e9ecef;
            padding: 4px 8px;
            border-radius: 4px;
            display: inline-block;
        \x7d
        
        .empty-state \x7b
            text-align: center;
            padding: 60px 20px;
            color: #666;
        \x7d
        
        .empty-state h2 \x7b
            font-size: 1.5em;
            margin-bottom: 10px;
            color: #999;
        \x7d
        
        footer \x7b
            background: #f8f9fa;
            padding: 20px 30px;
            text-align: center;
            color: #666;
            font-size: 0.9em;
            border-top: 1px solid #e9ecef;
        \x7d
        
        footer a \x7b
            color: #667eea;
            text-decoration: none;
        \x7d
        
        footer a:hover \x7b
            text-decoration: underline;
        \x7d
        
        @media (max-width: 768px) \x7b
            header h1 \x7b
                font-size: 2em;
            \x7d
            
            .content \x7b
                padding: 30px 20px;
            \x7d
            
            .snippet-item \x7b
                padding: 20px;
            \x7d
        \x7d
    </style>
</head>
<body>
    <div class=\"container\">
        <header>
            <h1>\u00F0\u0178\u201C\u0161 Code Snippets</h1>
            <p>A collection of code snippets and small one-page apps</p>
        </header>
        
        <div class=\"content\">
            <div class=\"snippet-count\">
                "

/-- The template text between the `snippet_count` and `snippets_content` placeholders. -/
def tplB : Str := str "
            </div>
            
            "

/-- The template text between the `snippets_content` and `timestamp` placeholders. -/
def tplC : Str := str "
        </div>
        
        <footer>
            <p>Generated on "

/-- The template text after the `timestamp` placeholder. -/
def tplD : Str := str " | <a href=\"https://github.com/willf/snippets\" target=\"_blank\">View on GitHub</a></p>
        </footer>
    </div>
</body>
</html>
"

/-- `generate_index_html` as a function of the records and the timestamp
string (`datetime.now().strftime("%Y-%m-%d %H:%M:%S")` is an input here):
the document written to the output file, obtained by substituting the three
placeholders of the template. -/
def generate_index_html (snippets : List Snippet) (timestamp : Str) : Str :=
  tplA ++ snippet_count snippets ++ tplB ++ snippets_content snippets ++ tplC
    ++ timestamp ++ tplD

/-! ## Verbatim-occurrence predicates -/

/-- `pat` occurs verbatim (character for character) inside `s`. -/
def occursIn (pat s : Str) : Prop := ∃ u v, s = u ++ pat ++ v

/-- Exact (case-sensitive) literal match at the head of the subject. -/
def dropEx : Str → Str → Option Str
  | [], t => some t
  | _ :: _, [] => none
  | p :: ps, t :: ts => if p = t then dropEx ps ts else none

/-- Executable occurrence test for `occursIn`. -/
def occursB (pat : Str) : Str → Bool
  | [] => pat.isEmpty
  | c :: cs => (dropEx pat (c :: cs)).isSome || occursB pat cs

/-- Adjacent character pairs of a string, used to reason about two-character
patterns across concatenations. -/
def pairs : Str → List (Char × Char)
  | a :: b :: rest => (a, b) :: pairs (b :: rest)
  | _ => []

/-! ## Lemmas about case-insensitive matching -/

lemma charToNat_ofNat (n : Nat) (h : n.isValidChar) : (Char.ofNat n).toNat = n := by
  unfold Char.ofNat
  rw [dif_pos h]
  rfl

/-- Lowercasing a character other than `e` cannot produce `e` when `e` is
not a lowercase letter. -/
lemma lowc_ne {c e : Char} (h : c ≠ e) (he : e.toNat < 97 ∨ 122 < e.toNat) :
    lowc c ≠ e := by
  intro habs
  unfold lowc at habs
  by_cases hc : 65 ≤ c.toNat ∧ c.toNat ≤ 90
  · rw [if_pos hc] at habs
    have ht := congrArg Char.toNat habs
    rw [charToNat_ofNat _ (Or.inl (by omega))] at ht
    omega
  · rw [if_neg hc] at habs
    exact h habs

lemma lowc_ne_lt {c : Char} (h : c ≠ '<') : lowc c ≠ '<' :=
  lowc_ne h (Or.inl (by decide))

lemma lowc_ne_eq {c : Char} (h : c ≠ '=') : lowc c ≠ '=' :=
  lowc_ne h (Or.inl (by decide))

lemma dropCI_self (pat rest : Str) : dropCI pat (pat ++ rest) = some rest := by
  induction pat with
  | nil => rfl
  | cons p ps ih =>
    show dropCI (p :: ps) (p :: (ps ++ rest)) = some rest
    rw [dropCI, if_pos rfl]
    exact ih

lemma dropCI_none_of_short (pat s : Str) (h : s.length < pat.length) :
    dropCI pat s = none := by
  induction pat generalizing s with
  | nil => simp at h
  | cons p ps ih =>
    cases s with
    | nil => rfl
    | cons c cs =>
      rw [dropCI]
      split
      · exact ih cs (by simpa using h)
      · rfl

lemma dropCI_none_of_mismatch (i : Nat) (pat s : Str) (p c : Char)
    (hp : pat[i]? = some p) (hc : s[i]? = some c) (hne : lowc p ≠ lowc c) :
    dropCI pat s = none := by
  induction i generalizing pat s with
  | zero =>
    cases pat with
    | nil => simp at hp
    | cons p0 ps =>
      cases s with
      | nil => simp at hc
      | cons c0 cs =>
        simp only [List.getElem?_cons_zero, Option.some.injEq] at hp hc
        subst hp; subst hc
        rw [dropCI, if_neg hne]
  | succ i ih =>
    cases pat with
    | nil => simp at hp
    | cons p0 ps =>
      cases s with
      | nil => simp at hc
      | cons c0 cs =>
        simp only [List.getElem?_cons_succ] at hp hc
        rw [dropCI]
        split
        · exact ih ps cs hp hc
        · rfl

lemma dropCI_append_of_le (pat s r : Str) (h : pat.length ≤ s.length) :
    dropCI pat (s ++ r) = (dropCI pat s).map (· ++ r) := by
  induction pat generalizing s with
  | nil => simp [dropCI]
  | cons p ps ih =>
    cases s with
    | nil => simp at h
    | cons c cs =>
      show dropCI (p :: ps) (c :: (cs ++ r)) = _
      rw [dropCI, dropCI]
      split
      · exact ih cs (by simpa using h)
      · rfl

lemma splitAtCI_cons_of_some {pat : Str} {c : Char} {cs rest : Str}
    (h : dropCI pat (c :: cs) = some rest) :
    splitAtCI pat (c :: cs) = some ([], rest) := by
  rw [splitAtCI, h]

lemma splitAtCI_cons_of_none {pat : Str} {c : Char} {cs : Str}
    (h : dropCI pat (c :: cs) = none) :
    splitAtCI pat (c :: cs) = (splitAtCI pat cs).map (fun r => (c :: r.1, r.2)) := by
  rw [splitAtCI, h]

lemma splitAtCI_self (pat rest : Str) (h : pat ≠ []) :
    splitAtCI pat (pat ++ rest) = some ([], rest) := by
  cases pat with
  | nil => exact absurd rfl h
  | cons p ps =>
    exact splitAtCI_cons_of_some (dropCI_self (p :: ps) rest)

lemma splitAtCI_skip (ps pre s : Str) (h : '<' ∉ pre) :
    splitAtCI ('<' :: ps) (pre ++ s)
      = (splitAtCI ('<' :: ps) s).map (fun r => (pre ++ r.1, r.2)) := by
  induction pre with
  | nil =>
    cases hs : splitAtCI ('<' :: ps) s <;> simp [hs]
  | cons c pre' ih =>
    have hc : c ≠ '<' := fun h' => h (by simp [h'])
    have hne : lowc '<' ≠ lowc c := by
      have h1 := lowc_ne_lt hc
      have h2 : lowc '<' = '<' := rfl
      rw [h2]
      exact fun h' => h1 h'.symm
    have h0 : dropCI ('<' :: ps) (c :: (pre' ++ s)) = none := by
      rw [dropCI, if_neg hne]
    rw [List.cons_append, splitAtCI_cons_of_none h0, ih (fun hm => h (by simp [hm]))]
    cases hs : splitAtCI ('<' :: ps) s <;> simp [hs]

lemma splitAtCI_none_drop (pat s : Str) (hpat : pat ≠ [])
    (h : splitAtCI pat s = none) : ∀ j, dropCI pat (s.drop j) = none := by
  induction s with
  | nil =>
    intro j
    cases pat with
    | nil => exact absurd rfl hpat
    | cons p ps => simp [dropCI]
  | cons c cs ih =>
    intro j
    rw [splitAtCI] at h
    cases hd : dropCI pat (c :: cs) with
    | some r => rw [hd] at h; simp at h
    | none =>
      rw [hd] at h
      have h2 : splitAtCI pat cs = none := by
        cases hs : splitAtCI pat cs with
        | none => rfl
        | some r => rw [hs] at h; simp at h
      cases j with
      | zero => simpa using hd
      | succ j => simpa using ih h2 j

lemma splitAtCI_append_nospan (pat xs ys : Str)
    (h : ∀ j, j < xs.length → dropCI pat (xs.drop j ++ ys) = none) :
    splitAtCI pat (xs ++ ys)
      = (splitAtCI pat ys).map (fun r => (xs ++ r.1, r.2)) := by
  induction xs with
  | nil =>
    cases hs : splitAtCI pat ys <;> simp [hs]
  | cons c xs' ih =>
    have h0 : dropCI pat (c :: (xs' ++ ys)) = none := by
      simpa using h 0 (by simp)
    rw [List.cons_append, splitAtCI_cons_of_none h0,
      ih (fun j hj => by simpa using h (j + 1) (by simpa using hj))]
    cases hs : splitAtCI pat ys <;> simp [hs]

lemma splitAtChar_cons_of_ne {g c : Char} {cs : Str} (h : c ≠ g) :
    splitAtChar g (c :: cs) = (splitAtChar g cs).map (fun r => (c :: r.1, r.2)) := by
  rw [splitAtChar, if_neg h]

lemma splitAtChar_skip (g : Char) (pre s : Str) (h : g ∉ pre) :
    splitAtChar g (pre ++ s)
      = (splitAtChar g s).map (fun r => (pre ++ r.1, r.2)) := by
  induction pre with
  | nil =>
    cases hs : splitAtChar g s <;> simp [hs]
  | cons c pre' ih =>
    have hc : c ≠ g := fun h' => h (by simp [h'])
    rw [List.cons_append, splitAtChar_cons_of_ne hc, ih (fun hm => h (by simp [hm]))]
    cases hs : splitAtChar g s <;> simp [hs]

lemma splitAtChar_here (g : Char) (rest : Str) :
    splitAtChar g (g :: rest) = some ([], rest) := by
  simp [splitAtChar]

/-! ## Characterisation of the tag searches on well-shaped inputs -/

lemma optBind_some {A B : Type} (a : A) (f : A → Option B) : (some a).bind f = f a := rfl

lemma optMap_some {A B : Type} (a : A) (f : A → B) : (some a).map f = some (f a) := rfl

lemma titleSearch_found (pre t post : Str) (hpre : '<' ∉ pre) (ht : '<' ∉ t) :
    titleSearch (pre ++ (str "<title>" ++ (t ++ (str "</title>" ++ post)))) = some t := by
  have e1 : str "<title>" = '<' :: str "title>" := rfl
  have h1 : splitAtCI (str "<title>") (pre ++ (str "<title>" ++ (t ++ (str "</title>" ++ post))))
      = some (pre, t ++ (str "</title>" ++ post)) := by
    rw [e1, splitAtCI_skip _ _ _ hpre, ← e1, splitAtCI_self _ _ (by decide)]
    simp
  have e2 : str "</title>" = '<' :: str "/title>" := rfl
  have h2 : splitAtCI (str "</title>") (t ++ (str "</title>" ++ post)) = some (t, post) := by
    rw [e2, splitAtCI_skip _ _ _ ht, ← e2, splitAtCI_self _ _ (by decide)]
    simp
  unfold titleSearch
  rw [h1]
  simp only [optBind_some]
  rw [h2]
  rfl

lemma tagSearch_found (opTail clTail : Str) (pre attrs t post : Str)
    (hpre : '<' ∉ pre) (hattrs : '>' ∉ attrs) (ht : '<' ∉ t) :
    tagSearch ('<' :: opTail) ('<' :: clTail)
      (pre ++ (('<' :: opTail) ++ (attrs ++ ('>' :: (t ++ (('<' :: clTail) ++ post))))))
      = some t := by
  have h1 : splitAtCI ('<' :: opTail)
      (pre ++ (('<' :: opTail) ++ (attrs ++ ('>' :: (t ++ (('<' :: clTail) ++ post))))))
      = some (pre, attrs ++ ('>' :: (t ++ (('<' :: clTail) ++ post)))) := by
    rw [splitAtCI_skip _ _ _ hpre, splitAtCI_self _ _ (by simp)]
    simp
  have h2 : splitAtChar '>' (attrs ++ ('>' :: (t ++ (('<' :: clTail) ++ post))))
      = some (attrs, t ++ (('<' :: clTail) ++ post)) := by
    rw [splitAtChar_skip _ _ _ hattrs, splitAtChar_here]
    simp
  have h3 : splitAtCI ('<' :: clTail) (t ++ (('<' :: clTail) ++ post)) = some (t, post) := by
    rw [splitAtCI_skip _ _ _ ht, splitAtCI_self _ _ (by simp)]
    simp
  unfold tagSearch
  rw [h1]
  simp only [optBind_some]
  rw [h2]
  simp only [optBind_some]
  rw [h3]
  rfl

lemma pSearch_closer_nospan (body post : Str)
    (hbody : splitAtCI (str "</p>") body = none) :
    splitAtCI (str "</p>") (body ++ (str "</p>" ++ post))
      = some (body, post) := by
  have hno : ∀ j, j < body.length →
      dropCI (str "</p>") (body.drop j ++ (str "</p>" ++ post)) = none := by
    intro j hj
    have hd := splitAtCI_none_drop (str "</p>") body (by decide) hbody j
    rcases Nat.lt_or_ge (body.drop j).length 4 with hlen | hlen
    · have h1 : 1 ≤ (body.drop j).length := by
        simp only [List.length_drop]
        omega
      have hys : (body.drop j ++ (str "</p>" ++ post))[(body.drop j).length]? = some '<' := by
        rw [List.getElem?_append_right (le_refl _)]
        simp only [Nat.sub_self]
        rfl
      interval_cases h : (body.drop j).length
      · exact dropCI_none_of_mismatch 1 _ _ '/' '<' (by decide) (by rw [← h] at hys ⊢; exact hys) (by decide)
      · exact dropCI_none_of_mismatch 2 _ _ 'p' '<' (by decide) (by rw [← h] at hys ⊢; exact hys) (by decide)
      · exact dropCI_none_of_mismatch 3 _ _ '>' '<' (by decide) (by rw [← h] at hys ⊢; exact hys) (by decide)
    · rw [dropCI_append_of_le _ _ _ (by simpa using hlen), hd]
      rfl
  rw [splitAtCI_append_nospan _ _ _ hno, splitAtCI_self _ _ (by decide)]
  simp

lemma pSearch_found (pre attrs body post : Str)
    (hpre : '<' ∉ pre) (hattrs : '>' ∉ attrs)
    (hbody : splitAtCI (str "</p>") body = none) :
    pSearch (pre ++ (str "<p" ++ (attrs ++ ('>' :: (body ++ (str "</p>" ++ post))))))
      = some body := by
  have e1 : str "<p" = '<' :: str "p" := rfl
  have h1 : splitAtCI (str "<p")
      (pre ++ (str "<p" ++ (attrs ++ ('>' :: (body ++ (str "</p>" ++ post))))))
      = some (pre, attrs ++ ('>' :: (body ++ (str "</p>" ++ post)))) := by
    rw [e1, splitAtCI_skip _ _ _ hpre, ← e1, splitAtCI_self _ _ (by decide)]
    simp
  have h2 : splitAtChar '>' (attrs ++ ('>' :: (body ++ (str "</p>" ++ post))))
      = some (attrs, body ++ (str "</p>" ++ post)) := by
    rw [splitAtChar_skip _ _ _ hattrs, splitAtChar_here]
    simp
  unfold pSearch tagSearch
  rw [h1]
  simp only [optBind_some]
  rw [h2]
  simp only [optBind_some]
  rw [pSearch_closer_nospan _ _ hbody]
  rfl

/-! ## Bridging lemmas: extractors in terms of the searches -/

lemma extract_title_eq_of_title {name content b : Str} (h : titleSearch content = some b) :
    extract_title_from_html name (some content) = (pyStrip b, false) := by
  simp only [extract_title_from_html]
  rw [h]

lemma extract_title_eq_of_h1 {name content b : Str} (h0 : titleSearch content = none)
    (h : h1Search content = some b) :
    extract_title_from_html name (some content) = (pyStrip b, false) := by
  simp only [extract_title_from_html]
  rw [h0, h]

lemma extract_title_eq_fallback {name content : Str} (h0 : titleSearch content = none)
    (h : h1Search content = none) :
    extract_title_from_html name (some content) = (fallbackTitle name, false) := by
  simp only [extract_title_from_html]
  rw [h0, h]

lemma extract_desc_eq_of_meta {name content g : Str} (h : metaSearch content = some g) :
    extract_description_from_html name (some content) = (pyStrip g, false) := by
  simp only [extract_description_from_html]
  rw [h]

lemma extract_desc_eq_of_p {name content b : Str} (h0 : metaSearch content = none)
    (h : pSearch content = some b) :
    extract_description_from_html name (some content)
      = (if 150 < (collapseWs (stripTags b)).length
         then (collapseWs (stripTags b)).take 150 ++ str "..."
         else collapseWs (stripTags b), false) := by
  simp only [extract_description_from_html]
  rw [h0, h]

lemma extract_desc_eq_empty {name content : Str} (h0 : metaSearch content = none)
    (h : pSearch content = none) :
    extract_description_from_html name (some content) = ([], false) := by
  simp only [extract_description_from_html]
  rw [h0, h]

lemma pyStrip_eq_nil {t : Str} (h : ∀ c ∈ t, pyIsSpace c) : pyStrip t = [] := by
  unfold pyStrip
  rw [List.dropWhile_eq_nil_iff.mpr h]
  rfl

/-! ## Claim theorems: extraction -/

/-- C2: the derived title is the body of the first case-insensitive
`<title>…</title>` match, whitespace-trimmed, even across newlines; else the
body of the first case-insensitive `<h1…>…</h1>` match (the tag may carry
attributes), whitespace-trimmed; else the filename with its extension
stripped, underscores replaced by spaces, and each word capitalized. -/
theorem extract_title_spec :
    (∀ name pre t post : Str, '<' ∉ pre → '<' ∉ t →
      (extract_title_from_html name
        (some (pre ++ (str "<title>" ++ (t ++ (str "</title>" ++ post)))))).1 = pyStrip t)
    ∧ (∀ name pre attrs t post : Str,
        titleSearch (pre ++ (str "<h1" ++ (attrs ++ ('>' :: (t ++ (str "</h1>" ++ post))))))
          = none →
        '<' ∉ pre → '>' ∉ attrs → '<' ∉ t →
        (extract_title_from_html name
          (some (pre ++ (str "<h1" ++ (attrs ++ ('>' :: (t ++ (str "</h1>" ++ post)))))))).1
          = pyStrip t)
    ∧ (∀ name content : Str, titleSearch content = none → h1Search content = none →
        (extract_title_from_html name (some content)).1
          = pyTitle ((stem (baseName name)).map (fun c => if c = '_' then ' ' else c))) := by
  refine ⟨?_, ?_, ?_⟩
  · intro name pre t post hpre ht
    rw [extract_title_eq_of_title (titleSearch_found pre t post hpre ht)]
  · intro name pre attrs t post h0 hpre hattrs ht
    have hfound : h1Search
        (pre ++ (str "<h1" ++ (attrs ++ ('>' :: (t ++ (str "</h1>" ++ post)))))) = some t := by
      have e1 : str "<h1" = '<' :: str "h1" := rfl
      have e2 : str "</h1>" = '<' :: str "/h1>" := rfl
      unfold h1Search
      rw [e1, e2]
      exact tagSearch_found (str "h1") (str "/h1>") pre attrs t post hpre hattrs ht
    rw [extract_title_eq_of_h1 h0 hfound]
  · intro name content h0 h1
    rw [extract_title_eq_fallback h0 h1]
    rfl

theorem extract_title_spec_witness :
    (extract_title_from_html (str "a.html")
        (some (str "x<title> Foo\nBar </title>y"))).1 = str "Foo\nBar"
    ∧ (extract_title_from_html (str "a.html")
        (some (str "z<h1 class=\"c\">Hi</h1>w"))).1 = str "Hi"
    ∧ (extract_title_from_html (str "my_snippet.html")
        (some (str "plain text"))).1 = str "My Snippet" := by
  refine ⟨?_, ?_, ?_⟩
  · exact extract_title_spec.1 (str "a.html") (str "x") (str " Foo\nBar ") (str "y")
      (by decide) (by decide)
  · exact extract_title_spec.2.1 (str "a.html") (str "z") (str " class=\"c\"") (str "Hi")
      (str "w") (by decide) (by decide) (by decide) (by decide)
  · exact extract_title_spec.2.2 (str "my_snippet.html") (str "plain text")
      (by decide) (by decide)

/-- C10: a `<title>` tag whose body is empty or whitespace-only still wins:
the derived title is the empty string, pre-empting both the `<h1>` fallback
and the filename-derived fallback. -/
theorem title_whitespace_preempts :
    ∀ name pre t post : Str, '<' ∉ pre → '<' ∉ t → (∀ c ∈ t, pyIsSpace c) →
      (extract_title_from_html name
        (some (pre ++ (str "<title>" ++ (t ++ (str "</title>" ++ post)))))).1 = [] := by
  intro name pre t post hpre ht hsp
  rw [extract_title_eq_of_title (titleSearch_found pre t post hpre ht)]
  exact pyStrip_eq_nil hsp

theorem title_whitespace_preempts_witness :
    (extract_title_from_html (str "a_b.html")
        (some (str "q<title>  \n </title><h1>Backup</h1>"))).1 = [] :=
  title_whitespace_preempts (str "a_b.html") (str "q") (str "  \n ")
    (str "<h1>Backup</h1>") (by decide) (by decide) (by decide)

/-- C4: with no matching meta-description tag, the description is the body
of the first `<p…>…</p>` element with inner tags stripped and whitespace
collapsed, truncated to its first 150 characters plus an ellipsis marker
when longer than 150; with neither source it is the empty string. -/
theorem extract_description_p_spec :
    (∀ name pre attrs body post : Str,
      metaSearch (pre ++ (str "<p" ++ (attrs ++ ('>' :: (body ++ (str "</p>" ++ post))))))
        = none →
      splitAtCI (str "</p>") body = none →
      '<' ∉ pre → '>' ∉ attrs →
      (extract_description_from_html name
        (some (pre ++ (str "<p" ++ (attrs ++ ('>' :: (body ++ (str "</p>" ++ post)))))))).1
        = (if 150 < (collapseWs (stripTags body)).length
           then (collapseWs (stripTags body)).take 150 ++ str "..."
           else collapseWs (stripTags body)))
    ∧ (∀ name content : Str, metaSearch content = none → pSearch content = none →
        (extract_description_from_html name (some content)).1 = []) := by
  constructor
  · intro name pre attrs body post hmeta hbody hpre hattrs
    rw [extract_desc_eq_of_p hmeta (pSearch_found pre attrs body post hpre hattrs hbody)]
  · intro name content h0 h1
    rw [extract_desc_eq_empty h0 h1]

theorem extract_description_p_spec_witness :
    (extract_description_from_html (str "f.html")
        (some (str "<p class=\"x\">" ++ (List.replicate 160 'a' ++ str "</p>end")))).1
      = List.replicate 150 'a' ++ str "..."
    ∧ (extract_description_from_html (str "f.html") (some (str "just text"))).1 = [] := by
  constructor
  · exact Eq.trans (extract_description_p_spec.1 (str "f.html") [] (str " class=\"x\"")
      (List.replicate 160 'a') (str "end") (by decide) (by decide) (by decide) (by decide))
      (by decide)
  · exact extract_description_p_spec.2 (str "f.html") (str "just text") (by decide) (by decide)

/-! ## Scanner ordering lemmas -/

lemma lexLe_total : ∀ a b : Str, lexLe a b = true ∨ lexLe b a = true := by
  intro a
  induction a with
  | nil => intro b; exact Or.inl rfl
  | cons x xs ih =>
    intro b
    cases b with
    | nil => exact Or.inr rfl
    | cons y ys =>
      by_cases h1 : x < y
      · left
        rw [lexLe, if_pos h1]
      · by_cases h2 : y < x
        · right
          rw [lexLe, if_pos h2]
        · have hxy : x = y := le_antisymm (not_lt.mp h2) (not_lt.mp h1)
          subst hxy
          rcases ih ys with h | h
          · left
            rw [lexLe, if_neg h1, if_neg h1]
            exact h
          · right
            rw [lexLe, if_neg h1, if_neg h1]
            exact h

lemma lexLe_trans : ∀ a b c : Str, lexLe a b = true → lexLe b c = true → lexLe a c = true := by
  intro a
  induction a with
  | nil => intro b c _ _; rfl
  | cons x xs ih =>
    intro b c hab hbc
    cases b with
    | nil => simp [lexLe] at hab
    | cons y ys =>
      cases c with
      | nil => simp [lexLe] at hbc
      | cons z zs =>
        rw [lexLe] at hab hbc ⊢
        by_cases h1 : x < y
        · by_cases h2 : y < z
          · rw [if_pos (lt_trans h1 h2)]
          · rw [if_neg h2] at hbc
            by_cases h2' : z < y
            · rw [if_pos h2'] at hbc; exact absurd hbc (by decide)
            · have hyz : y = z := le_antisymm (not_lt.mp h2') (not_lt.mp h2)
              subst hyz
              rw [if_pos h1]
        · rw [if_neg h1] at hab
          by_cases h1' : y < x
          · rw [if_pos h1'] at hab; exact absurd hab (by decide)
          · have hxy : x = y := le_antisymm (not_lt.mp h1') (not_lt.mp h1)
            subst hxy
            rw [if_neg h1] at hab
            by_cases h2 : x < z
            · rw [if_pos h2]
            · rw [if_neg h2] at hbc ⊢
              by_cases h2' : z < x
              · rw [if_pos h2'] at hbc; exact absurd hbc (by decide)
              · rw [if_neg h2'] at hbc ⊢
                exact ih ys zs hab hbc

instance : IsTotal Str strLe :=
  ⟨fun a b => by
    rcases lexLe_total a b with h | h
    · exact Or.inl h
    · exact Or.inr h⟩

instance : IsTrans Str strLe := ⟨fun a b c => lexLe_trans a b c⟩

lemma map_filename_filterMap (isFile : Str → Bool) (fs : Str → Option Str) :
    ∀ L : List Str,
      (L.filterMap (scanStep isFile fs)).map Snippet.filename = L.filter (qualifiesB isFile) := by
  intro L
  induction L with
  | nil => rfl
  | cons a L ih =>
    by_cases h : qualifiesB isFile a
    · simp [List.filterMap_cons, List.filter_cons, scanStep, h, ih]
    · simp [List.filterMap_cons, List.filter_cons, scanStep, h, ih]

/-! ## Claim theorem: scanner -/

/-- C1: for every directory, the scanner's records are exactly the listing
entries that end in `.html`, are not `index.html`, and are regular files,
in lexicographically ascending filename order; with N such files the index
gets exactly N entries. -/
theorem find_html_snippets_spec (listing : List Str) (isFile : Str → Bool)
    (fs : Str → Option Str) :
    List.Sorted strLe ((find_html_snippets listing isFile fs).map Snippet.filename)
    ∧ ((find_html_snippets listing isFile fs).map Snippet.filename).Perm
        (listing.filter (qualifiesB isFile))
    ∧ (find_html_snippets listing isFile fs).length
        = (listing.filter (qualifiesB isFile)).length := by
  have hmap : (find_html_snippets listing isFile fs).map Snippet.filename
      = (List.insertionSort strLe listing).filter (qualifiesB isFile) :=
    map_filename_filterMap isFile fs _
  refine ⟨?_, ?_, ?_⟩
  · rw [hmap]
    exact List.Pairwise.sublist (List.filter_sublist _) (List.sorted_insertionSort strLe listing)
  · rw [hmap]
    exact (List.perm_insertionSort strLe listing).filter _
  · have hlen : (find_html_snippets listing isFile fs).length
        = ((find_html_snippets listing isFile fs).map Snippet.filename).length :=
      (List.length_map _ _).symm
    rw [hlen, hmap]
    exact ((List.perm_insertionSort strLe listing).filter _).length_eq

/-! ## Lemmas for per-file error recovery -/

lemma scanStep_filename {isFile : Str → Bool} {fs : Str → Option Str} {name : Str}
    {s : Snippet} (h : scanStep isFile fs name = some s) : s.filename = name := by
  unfold scanStep at h
  by_cases hq : qualifiesB isFile name
  · rw [if_pos hq] at h
    simp only [Option.some.injEq] at h
    rw [← h]
  · rw [if_neg hq] at h
    simp at h

lemma filterMap_local (n : Str) (isFile : Str → Bool) (fs fs' : Str → Option Str)
    (hagree : ∀ m, m ≠ n → fs' m = fs m) :
    ∀ L : List Str,
      List.Forall₂
        (fun a b : Snippet => a.filename = b.filename ∧ (a.filename ≠ n → a = b))
        (L.filterMap (scanStep isFile fs)) (L.filterMap (scanStep isFile fs')) := by
  intro L
  induction L with
  | nil => exact List.Forall₂.nil
  | cons a L ih =>
    rw [List.filterMap_cons, List.filterMap_cons]
    by_cases hq : qualifiesB isFile a
    · have e1 : scanStep isFile fs a = some ⟨a, (extract_title_from_html a (fs a)).1,
          (extract_description_from_html a (fs a)).1⟩ := by
        unfold scanStep; rw [if_pos hq]
      have e2 : scanStep isFile fs' a = some ⟨a, (extract_title_from_html a (fs' a)).1,
          (extract_description_from_html a (fs' a)).1⟩ := by
        unfold scanStep; rw [if_pos hq]
      rw [e1, e2]
      by_cases han : a = n
      · subst han
        exact List.Forall₂.cons ⟨rfl, fun hne => absurd rfl hne⟩ ih
      · rw [hagree a han]
        exact List.Forall₂.cons ⟨rfl, fun _ => rfl⟩ ih
    · have e1 : scanStep isFile fs a = none := by unfold scanStep; rw [if_neg hq]
      have e2 : scanStep isFile fs' a = none := by unfold scanStep; rw [if_neg hq]
      rw [e1, e2]
      exact ih

/-! ## Claim theorem: per-file read failures -/

/-- C5: a file whose read fails still yields a record with the
filename-derived title and empty description, a warning is recorded for it,
the run completes, and the records of all other files are unaffected. -/
theorem read_failure_spec (listing : List Str) (isFile : Str → Bool)
    (fs : Str → Option Str) (n : Str) (hmem : n ∈ listing)
    (hq : qualifiesB isFile n = true) (hfail : fs n = none) :
    (∀ s ∈ find_html_snippets listing isFile fs, s.filename = n →
        s.title = fallbackTitle n ∧ s.description = [])
    ∧ n ∈ run_warnings listing isFile fs
    ∧ ∀ fs' : Str → Option Str, (∀ m, m ≠ n → fs' m = fs m) →
        List.Forall₂
          (fun a b : Snippet => a.filename = b.filename ∧ (a.filename ≠ n → a = b))
          (find_html_snippets listing isFile fs) (find_html_snippets listing isFile fs') := by
  refine ⟨?_, ?_, ?_⟩
  · intro s hs hname
    obtain ⟨m, hmL, hstep⟩ := List.mem_filterMap.mp hs
    have hm : s.filename = m := scanStep_filename hstep
    have hmn : m = n := by rw [← hm, hname]
    subst hmn
    unfold scanStep at hstep
    rw [if_pos hq, hfail] at hstep
    simp only [Option.some.injEq] at hstep
    rw [← hstep]
    exact ⟨rfl, rfl⟩
  · unfold run_warnings
    rw [List.mem_filter]
    refine ⟨((List.perm_insertionSort strLe listing).mem_iff).mpr hmem, ?_⟩
    rw [hq, hfail]
    rfl
  · intro fs' hagree
    exact filterMap_local n isFile fs fs' hagree _

theorem read_failure_spec_witness :
    (∀ s ∈ find_html_snippets [str "b.html", str "a.html"] (fun _ => true)
        (fun m => if m = str "a.html" then none else some (str "<title>B</title>")),
      s.filename = str "a.html" →
        s.title = fallbackTitle (str "a.html") ∧ s.description = [])
    ∧ str "a.html" ∈ run_warnings [str "b.html", str "a.html"] (fun _ => true)
        (fun m => if m = str "a.html" then none else some (str "<title>B</title>")) :=
  ⟨(read_failure_spec [str "b.html", str "a.html"] (fun _ => true)
      (fun m => if m = str "a.html" then none else some (str "<title>B</title>"))
      (str "a.html") (by decide) (by decide) (by decide)).1,
   (read_failure_spec [str "b.html", str "a.html"] (fun _ => true)
      (fun m => if m = str "a.html" then none else some (str "<title>B</title>"))
      (str "a.html") (by decide) (by decide) (by decide)).2.1⟩

/-! ## Occurrence lemmas for the rendered document -/

lemma occursIn_extend {pat x : Str} (u v : Str) (h : occursIn pat x) :
    occursIn pat (u ++ x ++ v) := by
  obtain ⟨a, b, hx⟩ := h
  exact ⟨u ++ a, b ++ v, by rw [hx]; simp [List.append_assoc]⟩

lemma occursIn_left {pat x : Str} (v : Str) (h : occursIn pat x) :
    occursIn pat (x ++ v) := by
  have h2 := occursIn_extend [] v h
  simpa using h2

lemma occursIn_right {pat x : Str} (u : Str) (h : occursIn pat x) :
    occursIn pat (u ++ x) := by
  have h2 := occursIn_extend u [] h
  simpa using h2

lemma occursIn_self (pat : Str) : occursIn pat pat := ⟨[], [], by simp⟩

lemma occursIn_trans {a b c : Str} (hab : occursIn a b) (hbc : occursIn b c) :
    occursIn a c := by
  obtain ⟨u, v, hb⟩ := hab
  obtain ⟨p, q, hc⟩ := hbc
  exact ⟨p ++ u, v ++ q, by rw [hc, hb]; simp [List.append_assoc]⟩

lemma occursIn_entry_join {s : Snippet} {l : List Snippet} (h : s ∈ l) :
    occursIn (entry_html s) ((l.map entry_html).foldr (· ++ ·) []) := by
  induction l with
  | nil => simp at h
  | cons a l ih =>
    rcases List.mem_cons.mp h with h1 | h1
    · subst h1
      exact occursIn_left _ (occursIn_self _)
    · exact occursIn_right _ (ih h1)

lemma dropEx_iff (pat : Str) : ∀ s r : Str, dropEx pat s = some r ↔ s = pat ++ r := by
  induction pat with
  | nil =>
    intro s r
    simp [dropEx]
  | cons p ps ih =>
    intro s r
    cases s with
    | nil => simp [dropEx]
    | cons c cs =>
      rw [dropEx]
      by_cases hpc : p = c
      · subst hpc
        rw [if_pos rfl]
        rw [ih cs r]
        simp
      · rw [if_neg hpc]
        simp
        intro hc
        exact absurd hc.symm hpc

lemma occursB_correct (pat : Str) : ∀ s : Str, occursB pat s = true ↔ occursIn pat s := by
  intro s
  induction s with
  | nil =>
    simp [occursB, List.isEmpty_iff, occursIn]
  | cons c cs ih =>
    rw [occursB]
    simp only [Bool.or_eq_true, ih]
    constructor
    · rintro (h | h)
      · obtain ⟨r, hr⟩ := Option.isSome_iff_exists.mp h
        exact ⟨[], r, by simpa using (dropEx_iff pat _ r).mp hr⟩
      · obtain ⟨u, v, hv⟩ := h
        exact ⟨c :: u, v, by rw [hv]; rfl⟩
    · rintro ⟨u, v, hv⟩
      cases u with
      | nil =>
        left
        rw [Option.isSome_iff_exists]
        exact ⟨v, (dropEx_iff pat _ v).mpr (by simpa using hv)⟩
      | cons x u' =>
        right
        simp only [List.cons_append] at hv
        injection hv with h1 h2
        exact ⟨u', v, h2⟩

/-! ## Claim theorems: renderer -/

/-- C6: every record's title, description and filename are inserted into
the generated document verbatim, character for character, with no escaping
of HTML- or format-significant characters. -/
theorem verbatim_insertion_spec (snippets : List Snippet) (ts : Str) :
    ∀ s ∈ snippets,
      occursIn s.title (generate_index_html snippets ts)
      ∧ occursIn s.description (generate_index_html snippets ts)
      ∧ occursIn s.filename (generate_index_html snippets ts) := by
  intro s hs
  have hne : snippets ≠ [] := List.ne_nil_of_mem hs
  have hcontent : snippets_content snippets
      = str "<ul class=\"snippets-list\">\n" ++ (snippets.map entry_html).foldr (· ++ ·) []
        ++ str "            </ul>" := by
    rw [snippets_content, if_neg (by simpa [List.isEmpty_iff] using hne)]
  have hjoin := occursIn_entry_join (l := snippets) (s := s) hs
  have hdoc : ∀ pat : Str, occursIn pat (entry_html s) →
      occursIn pat (generate_index_html snippets ts) := by
    intro pat hp
    have h1 : occursIn pat (snippets_content snippets) := by
      rw [hcontent]
      exact occursIn_extend _ _ (occursIn_trans hp hjoin)
    have h2 : generate_index_html snippets ts
        = (tplA ++ snippet_count snippets ++ tplB) ++ snippets_content snippets
          ++ (tplC ++ ts ++ tplD) := by
      rw [generate_index_html]
      simp [List.append_assoc]
    rw [h2]
    exact occursIn_extend _ _ h1
  refine ⟨?_, ?_, ?_⟩
  · apply hdoc
    rw [entry_html]
    exact occursIn_left _ (occursIn_left _ (occursIn_left _ (occursIn_left _
      (occursIn_left _ (occursIn_left _ (occursIn_right _ (occursIn_self s.title)))))))
  · by_cases hd : s.description = []
    · exact hdoc _ ⟨[], entry_html s, by simp [hd]⟩
    · apply hdoc
      rw [entry_html, if_pos hd]
      exact occursIn_left _ (occursIn_left _ (occursIn_left _ (occursIn_left _
        (occursIn_right _ (occursIn_left _ (occursIn_right _
          (occursIn_self s.description)))))))
  · apply hdoc
    rw [entry_html]
    exact occursIn_left _ (occursIn_left _ (occursIn_left _ (occursIn_left _
      (occursIn_left _ (occursIn_left _ (occursIn_left _ (occursIn_left _
        (occursIn_right _ (occursIn_self s.filename)))))))))

theorem verbatim_insertion_spec_witness :
    occursIn (str "T<i>&{x}") (generate_index_html
      [⟨str "a.html", str "T<i>&{x}", str "D \"quoted\" & <b>"⟩] (str "2025-01-01 00:00:00"))
    ∧ occursIn (str "D \"quoted\" & <b>") (generate_index_html
      [⟨str "a.html", str "T<i>&{x}", str "D \"quoted\" & <b>"⟩] (str "2025-01-01 00:00:00")) :=
  ⟨((verbatim_insertion_spec [⟨str "a.html", str "T<i>&{x}", str "D \"quoted\" & <b>"⟩]
      (str "2025-01-01 00:00:00")) ⟨str "a.html", str "T<i>&{x}", str "D \"quoted\" & <b>"⟩
      (by simp)).1,
   ((verbatim_insertion_spec [⟨str "a.html", str "T<i>&{x}", str "D \"quoted\" & <b>"⟩]
      (str "2025-01-01 00:00:00")) ⟨str "a.html", str "T<i>&{x}", str "D \"quoted\" & <b>"⟩
      (by simp)).2.1⟩

/-- C7: for a fixed directory state the whole pipeline's output is a fixed
document with only the timestamp varying: there are strings A and B,
depending only on the directory contents, with output = A ++ timestamp ++ B
for every timestamp — two runs differ only in the timestamp field. -/
theorem deterministic_modulo_timestamp (listing : List Str) (isFile : Str → Bool)
    (fs : Str → Option Str) :
    ∃ A B : Str, ∀ ts : Str,
      generate_index_html (find_html_snippets listing isFile fs) ts = A ++ ts ++ B := by
  refine ⟨tplA ++ snippet_count (find_html_snippets listing isFile fs) ++ tplB
    ++ snippets_content (find_html_snippets listing isFile fs) ++ tplC, tplD, ?_⟩
  intro ts
  rw [generate_index_html]

/-- C8: with N > 0 records the document carries the correctly pluralized
count line "Found N snippet(s)"; with no records it instead carries the
distinct empty-state message with guidance text and renders no list
entries. -/
theorem count_line_spec (snippets : List Snippet) (ts : Str) :
    (snippets ≠ [] →
      occursIn (str "Found " ++ str (Nat.repr snippets.length) ++ str " snippet"
          ++ (if snippets.length = 1 then [] else str "s"))
        (generate_index_html snippets ts))
    ∧ (snippets = [] →
        occursIn (str "No snippets found") (generate_index_html snippets ts)
        ∧ occursIn (str "No Snippets Yet") (generate_index_html snippets ts)
        ∧ occursIn (str "Add HTML files to this directory and run generate.py again.")
            (generate_index_html snippets ts)
        ∧ ¬ occursIn (str "<li") (snippets_content snippets)) := by
  constructor
  · intro hne
    have hcount : snippet_count snippets
        = str "Found " ++ str (Nat.repr snippets.length) ++ str " snippet"
          ++ (if snippets.length = 1 then [] else str "s") := by
      rw [snippet_count, if_neg (by simpa [List.isEmpty_iff] using hne)]
    have hdoc : generate_index_html snippets ts
        = tplA ++ snippet_count snippets
          ++ (tplB ++ snippets_content snippets ++ tplC ++ ts ++ tplD) := by
      rw [generate_index_html]
      simp [List.append_assoc]
    rw [← hcount, hdoc]
    exact occursIn_extend _ _ (occursIn_self _)
  · intro he
    subst he
    have hdoc : generate_index_html [] ts
        = tplA ++ str "No snippets found"
          ++ (tplB ++ emptyStateHtml ++ tplC ++ ts ++ tplD) := by
      rw [generate_index_html]
      simp [snippet_count, snippets_content, List.append_assoc]
    have hdoc2 : generate_index_html [] ts
        = (tplA ++ str "No snippets found" ++ tplB) ++ emptyStateHtml
          ++ (tplC ++ ts ++ tplD) := by
      rw [hdoc]
      simp [List.append_assoc]
    refine ⟨?_, ?_, ?_, ?_⟩
    · rw [hdoc]
      exact occursIn_extend _ _ (occursIn_self _)
    · rw [hdoc2]
      exact occursIn_extend _ _ ((occursB_correct _ _).mp (by decide))
    · rw [hdoc2]
      exact occursIn_extend _ _ ((occursB_correct _ _).mp (by decide))
    · intro h
      have hb := (occursB_correct (str "<li") (snippets_content [])).mpr h
      exact absurd hb (by decide)

theorem count_line_spec_witness :
    occursIn (str "Found 2 snippets")
      (generate_index_html [⟨str "a.html", str "t", []⟩, ⟨str "b.html", str "u", []⟩]
        (str "2025-01-01 00:00:00"))
    ∧ occursIn (str "Found 1 snippet")
      (generate_index_html [⟨str "a.html", str "t", []⟩] (str "2025-01-01 00:00:00"))
    ∧ occursIn (str "No Snippets Yet")
      (generate_index_html ([] : List Snippet) (str "2025-01-01 00:00:00"))
    ∧ ¬ occursIn (str "<li") (snippets_content ([] : List Snippet)) :=
  ⟨(count_line_spec [⟨str "a.html", str "t", []⟩, ⟨str "b.html", str "u", []⟩]
      (str "2025-01-01 00:00:00")).1 (by simp),
   (count_line_spec [⟨str "a.html", str "t", []⟩] (str "2025-01-01 00:00:00")).1 (by simp),
   ((count_line_spec ([] : List Snippet) (str "2025-01-01 00:00:00")).2 rfl).2.1,
   ((count_line_spec ([] : List Snippet) (str "2025-01-01 00:00:00")).2 rfl).2.2.2⟩

/-! ## Two-character occurrence analysis via adjacent pairs -/

lemma pairs_cons_of_mem {p : Char × Char} {x : Char} {rest : Str}
    (h : p ∈ pairs rest) : p ∈ pairs (x :: rest) := by
  cases rest with
  | nil => simp [pairs] at h
  | cons y ys => exact List.mem_cons_of_mem _ h

lemma pair_mem_of_append (c d : Char) (u v : Str) : (c, d) ∈ pairs (u ++ c :: d :: v) := by
  induction u with
  | nil => exact List.mem_cons_self _ _
  | cons x u' ih => exact pairs_cons_of_mem ih

lemma occursIn_two_iff_pairs (c d : Char) (s : Str) :
    occursIn [c, d] s ↔ (c, d) ∈ pairs s := by
  constructor
  · rintro ⟨u, v, h⟩
    rw [h, List.append_assoc]
    exact pair_mem_of_append c d u v
  · intro h
    induction s with
    | nil => simp [pairs] at h
    | cons a s ih =>
      cases s with
      | nil => simp [pairs] at h
      | cons b rest =>
        rcases List.mem_cons.mp h with h1 | h1
        · injection h1 with e1 e2
          subst e1; subst e2
          exact ⟨[], rest, rfl⟩
        · obtain ⟨u, v, hv⟩ := ih h1
          exact ⟨a :: u, v, by rw [hv]; rfl⟩

lemma fst_mem_of_mem_pairs {p : Char × Char} : ∀ {l : Str}, p ∈ pairs l → p.1 ∈ l := by
  intro l
  induction l with
  | nil => intro h; simp [pairs] at h
  | cons a s ih =>
    intro h
    cases s with
    | nil => simp [pairs] at h
    | cons b rest =>
      rcases List.mem_cons.mp h with h1 | h1
      · subst h1
        exact List.mem_cons_self _ _
      · exact List.mem_cons_of_mem _ (ih h1)

lemma mem_of_getLast?Eq : ∀ {l : Str} {a : Char}, l.getLast? = some a → a ∈ l := by
  intro l
  induction l with
  | nil => intro a h; simp at h
  | cons x xs ih =>
    intro a h
    cases xs with
    | nil =>
      simp [List.getLast?] at h
      simp [h]
    | cons y ys =>
      rw [List.getLast?_cons_cons] at h
      exact List.mem_cons_of_mem _ (ih h)

lemma mem_pairs_append (p : Char × Char) :
    ∀ (x y : Str), p ∈ pairs (x ++ y) →
      p ∈ pairs x ∨ p ∈ pairs y ∨ (x.getLast? = some p.1 ∧ y.head? = some p.2) := by
  intro x
  induction x with
  | nil =>
    intro y h
    exact Or.inr (Or.inl h)
  | cons a x' ih =>
    intro y h
    cases x' with
    | nil =>
      cases y with
      | nil => simp [pairs] at h
      | cons b ys =>
        rcases List.mem_cons.mp h with h1 | h1
        · subst h1
          exact Or.inr (Or.inr ⟨rfl, rfl⟩)
        · exact Or.inr (Or.inl h1)
    | cons b xs =>
      rcases List.mem_cons.mp h with h1 | h1
      · subst h1
        exact Or.inl (List.mem_cons_self _ _)
      · rcases ih y h1 with h2 | h2 | h2
        · exact Or.inl (pairs_cons_of_mem h2)
        · exact Or.inr (Or.inl h2)
        · exact Or.inr (Or.inr ⟨by rw [List.getLast?_cons_cons]; exact h2.1, h2.2⟩)

/-- C9: a record with an empty description renders as an entry with no
description paragraph element at all — the entry is exactly the three
lines item/link/badge — while still containing the title hyperlink to the
filename and the filename badge; and (for markup-free title and filename)
no `<p` tag occurs anywhere in the entry. -/
theorem empty_description_entry_spec :
    ∀ s : Snippet, s.description = [] →
      entry_html s
        = entLi ++ entA1 ++ s.filename ++ entA2 ++ s.title ++ entA3
          ++ entS1 ++ s.filename ++ entS2 ++ entEnd
      ∧ occursIn (str "<a href=\"" ++ s.filename ++ str "\">" ++ s.title ++ str "</a>")
          (entry_html s)
      ∧ occursIn (str "<span class=\"snippet-filename\">" ++ s.filename ++ str "</span>")
          (entry_html s)
      ∧ ('<' ∉ s.title → '<' ∉ s.filename → ¬ occursIn (str "<p") (entry_html s)) := by
  intro s hd
  have hentry : entry_html s
      = entLi ++ entA1 ++ s.filename ++ entA2 ++ s.title ++ entA3
        ++ entS1 ++ s.filename ++ entS2 ++ entEnd := by
    rw [entry_html, if_neg (by simp [hd])]
    simp
  have e1 : entA1 = str "                    <h2>" ++ str "<a href=\"" := by decide
  have e2 : entA3 = str "</a>" ++ str "</h2>\n" := by decide
  have e3 : entS1 = str "                    " ++ str "<span class=\"snippet-filename\">" := by
    decide
  have e4 : entS2 = str "</span>" ++ str "\n" := by decide
  refine ⟨hentry, ?_, ?_, ?_⟩
  · refine ⟨entLi ++ str "                    <h2>",
      str "</h2>\n" ++ entS1 ++ s.filename ++ entS2 ++ entEnd, ?_⟩
    rw [hentry, e1, e2, show entA2 = str "\">" from rfl]
    simp [List.append_assoc]
  · refine ⟨entLi ++ entA1 ++ s.filename ++ entA2 ++ s.title ++ entA3
      ++ str "                    ", str "\n" ++ entEnd, ?_⟩
    rw [hentry, e3, e4]
    simp [List.append_assoc]
  · intro htitle hfname hocc
    have hR : entry_html s
        = entLi ++ (entA1 ++ (s.filename ++ (entA2 ++ (s.title ++ (entA3
          ++ (entS1 ++ (s.filename ++ (entS2 ++ entEnd)))))))) := by
      rw [hentry]
      simp [List.append_assoc]
    rw [hR] at hocc
    have hp : ('<', 'p') ∈ pairs (entLi ++ (entA1 ++ (s.filename ++ (entA2 ++ (s.title
        ++ (entA3 ++ (entS1 ++ (s.filename ++ (entS2 ++ entEnd))))))))) :=
      (occursIn_two_iff_pairs '<' 'p' _).mp hocc
    rcases mem_pairs_append _ _ _ hp with h | hp | hb
    · exact absurd h (by decide)
    swap
    · exact absurd hb.1 (by decide)
    rcases mem_pairs_append _ _ _ hp with h | hp | hb
    · exact absurd h (by decide)
    swap
    · exact absurd hb.1 (by decide)
    rcases mem_pairs_append _ _ _ hp with h | hp | hb
    · exact hfname (fst_mem_of_mem_pairs h)
    swap
    · exact hfname (mem_of_getLast?Eq hb.1)
    rcases mem_pairs_append _ _ _ hp with h | hp | hb
    · exact absurd h (by decide)
    swap
    · exact absurd hb.1 (by decide)
    rcases mem_pairs_append _ _ _ hp with h | hp | hb
    · exact htitle (fst_mem_of_mem_pairs h)
    swap
    · exact htitle (mem_of_getLast?Eq hb.1)
    rcases mem_pairs_append _ _ _ hp with h | hp | hb
    · exact absurd h (by decide)
    swap
    · exact absurd hb.1 (by decide)
    rcases mem_pairs_append _ _ _ hp with h | hp | hb
    · exact absurd h (by decide)
    swap
    · exact absurd hb.1 (by decide)
    rcases mem_pairs_append _ _ _ hp with h | hp | hb
    · exact hfname (fst_mem_of_mem_pairs h)
    swap
    · exact hfname (mem_of_getLast?Eq hb.1)
    rcases mem_pairs_append _ _ _ hp with h | h | hb
    · exact absurd h (by decide)
    · exact absurd h (by decide)
    · exact absurd hb.1 (by decide)

theorem empty_description_entry_spec_witness :
    entry_html ⟨str "a.html", str "Title", []⟩
      = entLi ++ entA1 ++ str "a.html" ++ entA2 ++ str "Title" ++ entA3
        ++ entS1 ++ str "a.html" ++ entS2 ++ entEnd
    ∧ ¬ occursIn (str "<p") (entry_html ⟨str "a.html", str "Title", []⟩) :=
  ⟨(empty_description_entry_spec ⟨str "a.html", str "Title", []⟩ rfl).1,
   (empty_description_entry_spec ⟨str "a.html", str "Title", []⟩ rfl).2.2.2
     (by decide) (by decide)⟩

/-! ## Greedy backtracking lemmas for the meta-description pattern -/

lemma greedySplits_gt (post : Str) : greedySplits ('>' :: post) = ['>' :: post] := by
  simp [greedySplits]

lemma greedySplits_append (a : Str) : ∀ s0 : Str, (∀ c ∈ a, c ≠ '>') →
    greedySplits (a ++ s0) = greedySplits s0 ++ sufAux a s0 := by
  induction a with
  | nil =>
    intro s0 _
    simp [sufAux]
  | cons c cs ih =>
    intro s0 h
    have hc : c ≠ '>' := h c (List.mem_cons_self _ _)
    show greedySplits (c :: (cs ++ s0)) = _
    rw [greedySplits, if_pos hc, ih s0 (fun x hx => h x (List.mem_cons_of_mem _ hx))]
    simp [sufAux, List.append_assoc]

lemma sufAux_append (x : Str) : ∀ y s0 : Str,
    sufAux (x ++ y) s0 = sufAux y s0 ++ sufAux x (y ++ s0) := by
  induction x with
  | nil =>
    intro y s0
    simp [sufAux]
  | cons c cs ih =>
    intro y s0
    show sufAux (c :: (cs ++ y)) s0 = _
    rw [sufAux, ih y s0]
    simp [sufAux, List.append_assoc]

lemma mem_sufAux {z : Str} (a : Str) : ∀ s0 : Str, z ∈ sufAux a s0 →
    ∃ j, j < a.length ∧ z = a.drop j ++ s0 := by
  induction a with
  | nil =>
    intro s0 h
    simp [sufAux] at h
  | cons c cs ih =>
    intro s0 h
    rw [sufAux] at h
    rcases List.mem_append.mp h with h1 | h1
    · obtain ⟨j, hj, hz⟩ := ih s0 h1
      exact ⟨j + 1, by simpa using hj, by simpa using hz⟩
    · have hz : z = c :: (cs ++ s0) := by simpa using h1
      exact ⟨0, by simp, by simpa using hz⟩

lemma findSomeAppendNone {f : Str → Option Str} (xs : List Str) (ys : List Str)
    (h : ∀ x ∈ xs, f x = none) : (xs ++ ys).findSome? f = ys.findSome? f := by
  induction xs with
  | nil => rfl
  | cons a as ih =>
    rw [List.cons_append, List.findSome?_cons, h a (List.mem_cons_self _ _)]
    exact ih (fun x hx => h x (List.mem_cons_of_mem _ hx))

lemma findSomeConsSome {f : Str → Option Str} {a : Str} {as : List Str} {b : Str}
    (h : f a = some b) : (a :: as).findSome? f = some b := by
  rw [List.findSome?_cons, h]

lemma takeWhile_nonquote (val : Str) (h : ∀ c ∈ val, ¬ isQuote c = true) (rest : Str) :
    List.takeWhile (fun c => !(isQuote c)) (val ++ '"' :: rest) = val := by
  induction val with
  | nil => simp [List.takeWhile, isQuote]
  | cons c cs ih =>
    rw [List.cons_append, List.takeWhile_cons]
    have hc : isQuote c = false := by
      have h' := h c (List.mem_cons_self _ _)
      simpa using h'
    rw [hc]
    simp only [Bool.not_false, if_true]
    rw [ih (fun x hx => h x (List.mem_cons_of_mem _ hx))]

/-- A case-insensitive pattern ending in `=` cannot match at the start of
`v ++ '"' :: w` when `v` holds no `=` and no pattern character lowercases
to `"`. -/
lemma dropCI_none_of_val_prefix (patPre : Str) (v w : Str)
    (hv : ∀ c ∈ v, c ≠ '=')
    (hpat : ∀ c ∈ patPre ++ ['='], lowc c ≠ '"') :
    dropCI (patPre ++ ['=']) (v ++ '"' :: w) = none := by
  rcases Nat.lt_or_ge patPre.length v.length with h | h
  · have hb : patPre.length < v.length := h
    have hvc : (v ++ '"' :: w)[patPre.length]? = some v[patPre.length] := by
      rw [List.getElem?_append]
      rw [if_pos hb]
      exact List.getElem?_eq_getElem hb
    refine dropCI_none_of_mismatch patPre.length _ _ '=' (v[patPre.length]) ?_ hvc ?_
    · rw [List.getElem?_append_right (le_refl _)]
      simp
    · have hmem : v[patPre.length] ∈ v := List.getElem_mem hb
      have hne := lowc_ne_eq (hv _ hmem)
      have he : lowc '=' = '=' := rfl
      rw [he]
      exact fun h' => hne h'.symm
  · have hb : v.length < (patPre ++ ['=']).length := by
      simp only [List.length_append, List.length_cons, List.length_nil]
      omega
    have hpc : (patPre ++ ['='])[v.length]? = some (patPre ++ ['='])[v.length] :=
      List.getElem?_eq_getElem hb
    have hsc : (v ++ '"' :: w)[v.length]? = some '"' := by
      rw [List.getElem?_append_right (le_refl _)]
      simp
    refine dropCI_none_of_mismatch v.length _ _ _ '"' hpc hsc ?_
    have hmem : (patPre ++ ['='])[v.length] ∈ patPre ++ ['='] := List.getElem_mem hb
    have := hpat _ hmem
    have hq : lowc '"' = '"' := rfl
    rw [hq]
    exact this

lemma dropCI_cons_none {p : Char} {ps : Str} {c : Char} {cs : Str}
    (h : lowc p ≠ lowc c) : dropCI (p :: ps) (c :: cs) = none := by
  rw [dropCI, if_neg h]

lemma dropCI_cons2_none {p1 p2 : Char} {ps : Str} {c1 c2 : Char} {cs : Str}
    (h : lowc p2 ≠ lowc c2) : dropCI (p1 :: p2 :: ps) (c1 :: c2 :: cs) = none := by
  rw [dropCI]
  split
  · exact dropCI_cons_none h
  · rfl

lemma metaName_none_of_dropCI {s1 : Str} (h : dropCI (str "name=") s1 = none) :
    metaName s1 = none := by
  unfold metaName
  rw [h]
  rfl

lemma metaInner_none_of_dropCI {t1 : Str} (h : dropCI (str "content=") t1 = none) :
    metaInner t1 = none := by
  unfold metaInner
  rw [h]
  rfl

lemma findSomeConsNone {f : Str → Option Str} {a : Str} {as : List Str}
    (h : f a = none) : (a :: as).findSome? f = as.findSome? f := by
  rw [List.findSome?_cons, h]

/-- The inner greedy scan of the meta pattern succeeds on
`" content=\"" ++ val ++ "\">" ++ post` with capture `val`, when `val` is
free of quotes, `>` and `=`. -/
lemma metaInner_stage (val post : Str)
    (hval : ∀ c ∈ val, ¬ isQuote c = true ∧ c ≠ '>' ∧ c ≠ '=') :
    (greedySplits (str " content=\"" ++ (val ++ ('"' :: ('>' :: post))))).findSome? metaInner
      = some val := by
  have hvq : ∀ c ∈ val, ¬ isQuote c = true := fun c hc => (hval c hc).1
  have hvgt : ∀ c ∈ val, c ≠ '>' := fun c hc => (hval c hc).2.1
  have hveq : ∀ c ∈ val, c ≠ '=' := fun c hc => (hval c hc).2.2
  have hre2 : str " content=\"" ++ (val ++ ('"' :: ('>' :: post)))
      = (str " content=\"" ++ (val ++ ['"'])) ++ ('>' :: post) := by
    simp [List.append_assoc]
  have hA2 : ∀ c ∈ str " content=\"" ++ (val ++ ['"']), c ≠ '>' := by
    intro c hc
    rcases List.mem_append.mp hc with h | h
    · exact (by decide : ∀ c ∈ str " content=\"", c ≠ '>') c h
    · rcases List.mem_append.mp h with h2 | h2
      · exact hvgt c h2
      · have he : c = '"' := by simpa using h2
        subst he
        decide
  have hX2 : (val ++ ['"']) ++ ('>' :: post) = val ++ ('"' :: ('>' :: post)) := by
    simp [List.append_assoc]
  have hsingle : ∀ Y : Str, sufAux ['"'] Y = ['"' :: Y] := fun Y => rfl
  have hsc : ∀ Y : Str, sufAux (str " c") Y = ['c' :: Y, ' ' :: ('c' :: Y)] := fun Y => rfl
  have hlit2 : str " content=\"" = str " c" ++ str "ontent=\"" := rfl
  rw [hre2, greedySplits_append _ _ hA2, greedySplits_gt,
    sufAux_append (str " content=\"") (val ++ ['"']) ('>' :: post),
    sufAux_append val ['"'] ('>' :: post), hsingle, hX2, hlit2,
    sufAux_append (str " c") (str "ontent=\"") (val ++ ('"' :: ('>' :: post))), hsc]
  simp only [List.append_assoc, List.cons_append, List.singleton_append, List.nil_append]
  refine Eq.trans (findSomeConsNone ?g1) (Eq.trans (findSomeConsNone ?g2)
    (Eq.trans (findSomeAppendNone _ _ ?g3) (Eq.trans (findSomeAppendNone _ _ ?g4)
      (findSomeConsSome ?g5))))
  case g1 =>
    exact metaInner_none_of_dropCI (dropCI_cons_none (by decide))
  case g2 =>
    exact metaInner_none_of_dropCI (dropCI_cons_none (by decide))
  case g3 =>
    intro z hz
    obtain ⟨j, hj, hz⟩ := mem_sufAux val _ hz
    subst hz
    refine metaInner_none_of_dropCI ?_
    exact dropCI_none_of_val_prefix (str "content") (val.drop j) ('>' :: post)
      (fun c hc => hveq c (List.drop_subset _ _ hc)) (by decide)
  case g4 =>
    intro z hz
    obtain ⟨k, hk, hz⟩ := mem_sufAux (str "ontent=\"") _ hz
    subst hz
    have he : (str "ontent=\"").length = 8 := by decide
    rw [he] at hk
    refine metaInner_none_of_dropCI ?_
    interval_cases k <;>
      exact dropCI_cons_none (by decide)
  case g5 =>
    unfold metaInner
    have g1 : dropCI (str "content=") ('c' :: (str "ontent=\"" ++ (val ++ ('"' :: ('>' :: post)))))
        = some ('"' :: (val ++ ('"' :: ('>' :: post)))) :=
      dropCI_self (str "content=") ('"' :: (val ++ ('"' :: ('>' :: post))))
    rw [g1]
    simp only [optBind_some]
    have g2 : quoteCl ('"' :: (val ++ ('"' :: ('>' :: post))))
        = some (val ++ ('"' :: ('>' :: post))) := rfl
    rw [g2]
    simp only [optBind_some]
    rw [takeWhile_nonquote val hvq ('>' :: post)]
    rw [List.drop_left val _]
    have g4 : quoteCl ('"' :: ('>' :: post)) = some ('>' :: post) := rfl
    rw [g4]
    simp only [optBind_some]
    have g5 : List.dropWhile (· ≠ '>') ('>' :: post) = '>' :: post := by
      rw [List.dropWhile_cons]
      simp
    rw [g5]
    simp

lemma optBind_none {A B : Type} (f : A → Option B) : (none : Option A).bind f = none := rfl

/-- The outer greedy scan of the meta pattern succeeds on
`" name=\"description\" content=\"" ++ val ++ "\">" ++ post` with capture
`val`. -/
lemma metaAfter_found (val post : Str)
    (hval : ∀ c ∈ val, ¬ isQuote c = true ∧ c ≠ '>' ∧ c ≠ '=') :
    metaAfter (str " name=\"description\" content=\"" ++ (val ++ ('"' :: ('>' :: post))))
      = some val := by
  have hvgt : ∀ c ∈ val, c ≠ '>' := fun c hc => (hval c hc).2.1
  have hveq : ∀ c ∈ val, c ≠ '=' := fun c hc => (hval c hc).2.2
  have hre : str " name=\"description\" content=\"" ++ (val ++ ('"' :: ('>' :: post)))
      = (str " name=\"description\" content=\"" ++ (val ++ ['"'])) ++ ('>' :: post) := by
    simp [List.append_assoc]
  have hA : ∀ c ∈ str " name=\"description\" content=\"" ++ (val ++ ['"']), c ≠ '>' := by
    intro c hc
    rcases List.mem_append.mp hc with h | h
    · exact (by decide : ∀ c ∈ str " name=\"description\" content=\"", c ≠ '>') c h
    · rcases List.mem_append.mp h with h2 | h2
      · exact hvgt c h2
      · have he : c = '"' := by simpa using h2
        subst he
        decide
  have hX : (val ++ ['"']) ++ ('>' :: post) = val ++ ('"' :: ('>' :: post)) := by
    simp [List.append_assoc]
  have hsingle : ∀ Y : Str, sufAux ['"'] Y = ['"' :: Y] := fun Y => rfl
  have hsn : ∀ Y : Str, sufAux (str " n") Y = ['n' :: Y, ' ' :: ('n' :: Y)] := fun Y => rfl
  have hlit1 : str " name=\"description\" content=\""
      = str " n" ++ str "ame=\"description\" content=\"" := rfl
  unfold metaAfter
  rw [hre, greedySplits_append _ _ hA, greedySplits_gt,
    sufAux_append (str " name=\"description\" content=\"") (val ++ ['"']) ('>' :: post),
    sufAux_append val ['"'] ('>' :: post), hsingle, hX, hlit1,
    sufAux_append (str " n") (str "ame=\"description\" content=\"")
      (val ++ ('"' :: ('>' :: post))), hsn]
  simp only [List.append_assoc, List.cons_append, List.singleton_append, List.nil_append]
  refine Eq.trans (findSomeConsNone ?g1) (Eq.trans (findSomeConsNone ?g2)
    (Eq.trans (findSomeAppendNone _ _ ?g3) (Eq.trans (findSomeAppendNone _ _ ?g4)
      (findSomeConsSome ?g5))))
  case g1 =>
    exact metaName_none_of_dropCI (dropCI_cons_none (by decide))
  case g2 =>
    exact metaName_none_of_dropCI (dropCI_cons_none (by decide))
  case g3 =>
    intro z hz
    obtain ⟨j, hj, hz⟩ := mem_sufAux val _ hz
    subst hz
    refine metaName_none_of_dropCI ?_
    exact dropCI_none_of_val_prefix (str "name") (val.drop j) ('>' :: post)
      (fun c hc => hveq c (List.drop_subset _ _ hc)) (by decide)
  case g4 =>
    intro z hz
    obtain ⟨k, hk, hz⟩ := mem_sufAux (str "ame=\"description\" content=\"") _ hz
    subst hz
    have he : (str "ame=\"description\" content=\"").length = 27 := by decide
    rw [he] at hk
    refine metaName_none_of_dropCI ?_
    interval_cases k <;>
      first
        | exact dropCI_cons_none (by decide)
        | exact dropCI_cons2_none (by decide)
  case g5 =>
    unfold metaName
    have h1 : dropCI (str "name=")
        ('n' :: (str "ame=\"description\" content=\"" ++ (val ++ ('"' :: ('>' :: post)))))
        = some (str "\"description\" content=\"" ++ (val ++ ('"' :: ('>' :: post)))) :=
      dropCI_self (str "name=") (str "\"description\" content=\"" ++ (val ++ ('"' :: ('>' :: post))))
    rw [h1]
    simp only [optBind_some]
    have h2 : quoteCl (str "\"description\" content=\"" ++ (val ++ ('"' :: ('>' :: post))))
        = some (str "description\" content=\"" ++ (val ++ ('"' :: ('>' :: post)))) := rfl
    rw [h2]
    simp only [optBind_some]
    have h3 : dropCI (str "description")
        (str "description\" content=\"" ++ (val ++ ('"' :: ('>' :: post))))
        = some (str "\" content=\"" ++ (val ++ ('"' :: ('>' :: post)))) :=
      dropCI_self (str "description") (str "\" content=\"" ++ (val ++ ('"' :: ('>' :: post))))
    rw [h3]
    simp only [optBind_some]
    have h4 : quoteCl (str "\" content=\"" ++ (val ++ ('"' :: ('>' :: post))))
        = some (str " content=\"" ++ (val ++ ('"' :: ('>' :: post)))) := rfl
    rw [h4]
    simp only [optBind_some]
    exact metaInner_stage val post hval

lemma metaSearch_skip (pre : Str) : ∀ s : Str, '<' ∉ pre →
    metaSearch (pre ++ s) = metaSearch s := by
  induction pre with
  | nil => intro s _; rfl
  | cons c pre' ih =>
    intro s h
    have hc : c ≠ '<' := fun h' => h (by simp [h'])
    have hd : dropCI (str "<meta") (c :: (pre' ++ s)) = none :=
      dropCI_cons_none (fun h' => lowc_ne_lt hc h'.symm)
    rw [List.cons_append, metaSearch, hd, optBind_none]
    exact ih s (fun hm => h (List.mem_cons_of_mem _ hm))

/-- The meta-description search on a well-shaped tag. -/
lemma metaSearch_found (pre val post : Str) (hpre : '<' ∉ pre)
    (hval : ∀ c ∈ val, ¬ isQuote c = true ∧ c ≠ '>' ∧ c ≠ '=') :
    metaSearch (pre ++ (str "<meta name=\"description\" content=\""
      ++ (val ++ (str "\">" ++ post)))) = some val := by
  rw [metaSearch_skip pre _ hpre]
  have hsub : str "<meta name=\"description\" content=\"" ++ (val ++ (str "\">" ++ post))
      = '<' :: (str "meta name=\"description\" content=\"" ++ (val ++ ('"' :: ('>' :: post)))) :=
    rfl
  rw [hsub, metaSearch]
  have hd : dropCI (str "<meta")
      ('<' :: (str "meta name=\"description\" content=\"" ++ (val ++ ('"' :: ('>' :: post)))))
      = some (str " name=\"description\" content=\"" ++ (val ++ ('"' :: ('>' :: post)))) :=
    dropCI_self (str "<meta") (str " name=\"description\" content=\"" ++ (val ++ ('"' :: ('>' :: post))))
  rw [hd, optBind_some, metaAfter_found val post hval]

/-! ## Claim theorems: meta description (C3) -/

/-- C3 counterexample: the meta-description capture is not returned
verbatim — the source applies `.strip()` (generate.py line 63), so a
content value with surrounding spaces loses them. -/
theorem meta_description_not_verbatim :
    (extract_description_from_html (str "f.html")
      (some (str "<meta name=\"description\" content=\" A short demo \">"))).1
      = str "A short demo"
    ∧ str "A short demo" ≠ str " A short demo " :=
  ⟨by decide, by decide⟩

/-- C3 (amended): for a file containing a case-insensitive meta tag of the
shape `<meta name="description" content="VAL">` in which the `name`
attribute precedes the `content` attribute and VAL holds no quote, `>` or
`=` characters, the derived description is VAL with surrounding whitespace
stripped (not the verbatim attribute value). -/
theorem meta_description_spec (name pre val post : Str)
    (hpre : '<' ∉ pre)
    (hval : ∀ c ∈ val, ¬ isQuote c = true ∧ c ≠ '>' ∧ c ≠ '=') :
    (extract_description_from_html name
      (some (pre ++ (str "<meta name=\"description\" content=\""
        ++ (val ++ (str "\">" ++ post)))))).1
      = pyStrip val := by
  rw [extract_desc_eq_of_meta (metaSearch_found pre val post hpre hval)]

theorem meta_description_spec_witness :
    (extract_description_from_html (str "f.html")
      (some (str "x<meta name=\"description\" content=\" A short demo \">tail"))).1
      = str "A short demo" :=
  Eq.trans (meta_description_spec (str "f.html") (str "x") (str " A short demo ")
    (str "tail") (by decide) (by decide)) (by decide)
